import Mathlib

/-!
Verification of the tic-tac-toe game engine in `src/tic_tac_toe.py`.

The Python module is shallowly embedded: the mutable `GameState` dataclass
becomes an immutable structure that operations return updated copies of,
the console read-validate-apply loop of `take_turn` becomes the pure
validate-apply step `take_turn_step` (returning the unchanged state plus an
error on failure), and the `play_game` loop becomes the step function
`play_step` on a session state machine.
-/

namespace TicTacToe

/-- The `GameState` dataclass: a board of 9 cells (strings, with the blank
string as the empty cell) and the current player's mark. -/
structure GameState where
  board : List String
  current_player : String
deriving DecidableEq, Repr

/-- `GameState.switch_player`: becomes the other player. The Python body is
`self.current_player = "O" if self.current_player == "X" else "X"`. -/
def switch_player (g : GameState) : GameState :=
  { g with current_player := if g.current_player = "X" then "O" else "X" }

/-- The `WINNING_COMBINATIONS` tuple: 3 rows, 3 columns, 2 diagonals. -/
def WINNING_COMBINATIONS : List (Nat × Nat × Nat) :=
  [(0, 1, 2), (3, 4, 5), (6, 7, 8),
   (0, 3, 6), (1, 4, 7), (2, 5, 8),
   (0, 4, 8), (2, 4, 6)]

/-- `create_game`: a fresh game with an empty board; the dataclass default
makes `current_player` start as X. -/
def create_game : GameState :=
  { board := List.replicate 9 " ", current_player := "X" }

/-- Reading a board cell; Python's `board[i]` on the length-9 board. -/
def cell (board : List String) (i : Nat) : String :=
  board.getD i " "

/-- `format_board`: rows `board[i:i+3]` joined by a bar for
`i in range(0, 9, 3)`, then joined by the dashed separator. -/
def format_board (board : List String) : String :=
  String.intercalate "\n---------\n"
    ([0, 3, 6].map fun i => String.intercalate " | " ((board.drop i).take 3))

/-- The per-line test in `winner`:
`board[a] != " " and board[a] == board[b] == board[c]`. -/
def lineComplete (board : List String) (t : Nat × Nat × Nat) : Bool :=
  cell board t.1 ≠ " " ∧ cell board t.1 = cell board t.2.1 ∧
    cell board t.2.1 = cell board t.2.2

/-- The scan of `winner` over a list of combinations, in list order. -/
def winnerAux (board : List String) : List (Nat × Nat × Nat) → Option String
  | [] => none
  | t :: rest =>
    if lineComplete board t then some (cell board t.1) else winnerAux board rest

/-- `winner`: the mark of the first complete winning line, else `None`. -/
def winner (board : List String) : Option String :=
  winnerAux board WINNING_COMBINATIONS

/-- `is_draw`: `all(square != " " for square in board)`. -/
def is_draw (board : List String) : Bool :=
  board.all fun square => square ≠ " "

/-- The two recoverable failures of the `take_turn` loop body: the
`ValueError` path (out-of-range position) and the occupied-cell path. -/
inductive MoveError where
  | InvalidPosition
  | CellOccupied
deriving DecidableEq, Repr

/-- One iteration of the `take_turn` loop body on an already-parsed 0-based
`position` (`int(choice) - 1`): out of `range(9)` is rejected, an occupied
cell is rejected, otherwise the cell is set to the current player's mark.
On failure the Python loop `continue`s with the state untouched, so the
step returns the unchanged state together with the error. -/
def take_turn_step (g : GameState) (position : Int) :
    GameState × Option MoveError :=
  if position < 0 ∨ 9 ≤ position then (g, some .InvalidPosition)
  else if cell g.board position.toNat ≠ " " then (g, some .CellOccupied)
  else ({ g with board := g.board.set position.toNat g.current_player }, none)

/-- A game session as seen by the `play_game` loop: still running, or ended
by the win break or the draw break (each keeping the final state). -/
inductive SessionState where
  | inProgress (g : GameState)
  | won (g : GameState) (mark : String)
  | draw (g : GameState)
deriving DecidableEq, Repr

/-- One iteration of the `play_game` loop: attempt the move (a failed
attempt re-prompts the same player), then check `winner`, then `is_draw`,
else `switch_player`. The two `break`s leave terminal states fixed. -/
def play_step (s : SessionState) (position : Int) : SessionState :=
  match s with
  | .inProgress g =>
    match take_turn_step g position with
    | (g1, some _) => .inProgress g1
    | (g1, none) =>
      match winner g1.board with
      | some m => .won g1 m
      | none =>
        if is_draw g1.board then .draw g1
        else .inProgress (switch_player g1)
  | .won g m => .won g m
  | .draw g => .draw g

/-- `play_game` starts from a fresh game. -/
def initialSession : SessionState :=
  .inProgress create_game

/-- The session states `play_game` can pass through. -/
inductive Reachable : SessionState → Prop where
  | init : Reachable initialSession
  | step {s : SessionState} (p : Int) : Reachable s → Reachable (play_step s p)

/-- The game state carried by a session state. -/
def stateOf : SessionState → GameState
  | .inProgress g => g
  | .won g _ => g
  | .draw g => g

/-- The invariant every reachable state satisfies: 9 cells, each empty, X
or O; current player X or O; X has made as many moves as O or one more. -/
def WeakInv (g : GameState) : Prop :=
  g.board.length = 9 ∧
  (∀ c ∈ g.board, c = " " ∨ c = "X" ∨ c = "O") ∧
  (g.current_player = "X" ∨ g.current_player = "O") ∧
  (g.board.count "X" = g.board.count "O" ∨
   g.board.count "X" = g.board.count "O" + 1)

/-- The stronger invariant of in-progress states, coupling the mark counts
to whose turn it is. -/
def StrongInv (g : GameState) : Prop :=
  g.board.length = 9 ∧
  (∀ c ∈ g.board, c = " " ∨ c = "X" ∨ c = "O") ∧
  ((g.current_player = "X" ∧ g.board.count "X" = g.board.count "O") ∨
   (g.current_player = "O" ∧ g.board.count "X" = g.board.count "O" + 1))

/-- The inductive session invariant: the turn-count coupling holds while
the game runs; the terminal breaks keep the weak invariant (the winner's
final move is not followed by a player switch). -/
def SessionInv : SessionState → Prop
  | .inProgress g => StrongInv g
  | .won g _ => WeakInv g
  | .draw g => WeakInv g

lemma strongInv_weakInv {g : GameState} (h : StrongInv g) : WeakInv g := by
  obtain ⟨h1, h2, h3⟩ := h
  refine ⟨h1, h2, ?_, ?_⟩
  · rcases h3 with ⟨h, _⟩ | ⟨h, _⟩
    · exact Or.inl h
    · exact Or.inr h
  · rcases h3 with ⟨_, h⟩ | ⟨_, h⟩
    · exact Or.inl h
    · exact Or.inr h

/-- A full board with no three-in-a-row, used to exercise the theorems. -/
def drawBoard : List String :=
  ["X", "O", "X", "X", "O", "O", "O", "X", "X"]

/-- A board where X has completed the top row. -/
def xWinsBoard : List String :=
  ["X", "X", "X", "O", "O", " ", " ", " ", " "]

lemma winnerAux_eq_find (board : List String) (L : List (Nat × Nat × Nat)) :
    winnerAux board L =
      (L.find? (lineComplete board)).map fun t => cell board t.1 := by
  induction L with
  | nil => rfl
  | cons t rest ih =>
    cases h : lineComplete board t <;>
      simp [winnerAux, List.find?_cons, h, ih]

/-- C1: on every 9-cell board, `winner` returns the mark of the first
complete line in `WINNING_COMBINATIONS` order; it is `none` iff no line is
complete, and any returned mark is non-empty and fills all three cells of
some winning line. -/
theorem C1_winner_spec (board : List String) (h9 : board.length = 9) :
    winner board =
      (WINNING_COMBINATIONS.find? (lineComplete board)).map
        (fun t => cell board t.1) ∧
    (winner board = none ↔
      ∀ t ∈ WINNING_COMBINATIONS, lineComplete board t = false) ∧
    (∀ m, winner board = some m →
      m ≠ " " ∧ ∃ t ∈ WINNING_COMBINATIONS,
        cell board t.1 = m ∧ cell board t.2.1 = m ∧ cell board t.2.2 = m) := by
  have hfind := winnerAux_eq_find board WINNING_COMBINATIONS
  refine ⟨hfind, ?_, ?_⟩
  · rw [winner, hfind]
    simp [Option.map_eq_none', List.find?_eq_none]
  · intro m hm
    rw [winner, hfind] at hm
    rcases Option.map_eq_some'.mp hm with ⟨t, hf, hmark⟩
    have ht := List.find?_some hf
    have htm := List.mem_of_find?_eq_some hf
    simp only [lineComplete, decide_eq_true_eq] at ht
    obtain ⟨hne, h12, h23⟩ := ht
    subst hmark
    exact ⟨hne, t, htm, rfl, h12.symm, (h12.trans h23).symm⟩

/-- C1 witness: the theorem at a board whose top row is all X. -/
theorem C1_winner_spec_witness :
    xWinsBoard.length = 9 ∧ winner xWinsBoard = some "X" := by
  have h := (C1_winner_spec xWinsBoard (by decide)).1
  exact ⟨by decide, by rw [h]; decide⟩

/-- C2: the validate-apply step of `take_turn` fails with
`InvalidPosition` iff the 0-based position is outside 0..8, fails with
`CellOccupied` iff the position is in range but the cell is taken, and on
failure the board and the current player are unchanged. -/
theorem C2_move_errors (g : GameState) (p : Int) :
    ((take_turn_step g p).2 = some MoveError.InvalidPosition ↔
      (p < 0 ∨ 8 < p)) ∧
    ((take_turn_step g p).2 = some MoveError.CellOccupied ↔
      (0 ≤ p ∧ p ≤ 8 ∧ cell g.board p.toNat ≠ " ")) ∧
    ((take_turn_step g p).2.isSome = true →
      (take_turn_step g p).1.board = g.board ∧
      (take_turn_step g p).1.current_player = g.current_player) := by
  by_cases h1 : p < 0 ∨ 9 ≤ p
  · have e : take_turn_step g p = (g, some MoveError.InvalidPosition) := by
      unfold take_turn_step
      rw [if_pos h1]
    rw [e]
    refine ⟨⟨fun _ => by omega, fun _ => rfl⟩, ?_, fun _ => ⟨rfl, rfl⟩⟩
    exact ⟨fun hc => by simp at hc, fun hr => absurd h1 (by omega)⟩
  · by_cases h2 : cell g.board p.toNat ≠ " "
    · have e : take_turn_step g p = (g, some MoveError.CellOccupied) := by
        unfold take_turn_step
        rw [if_neg h1, if_pos h2]
      rw [e]
      refine ⟨?_, ?_, fun _ => ⟨rfl, rfl⟩⟩
      · exact ⟨fun hc => by simp at hc, fun hr => absurd hr (by omega)⟩
      · exact ⟨fun _ => ⟨by omega, by omega, h2⟩, fun _ => rfl⟩
    · have e : take_turn_step g p =
          ({ g with board := g.board.set p.toNat g.current_player }, none) := by
        unfold take_turn_step
        rw [if_neg h1, if_neg h2]
      rw [e]
      refine ⟨?_, ?_, fun hc => by simp at hc⟩
      · exact ⟨fun hc => by simp at hc, fun hr => absurd hr (by omega)⟩
      · exact ⟨fun hc => by simp at hc, fun hr => absurd hr.2.2 h2⟩

/-- C2 witness: position 9 (0-based) on a fresh board is rejected as out of
range and leaves the state unchanged. -/
theorem C2_move_errors_witness :
    (take_turn_step create_game 9).2 = some MoveError.InvalidPosition ∧
    (take_turn_step create_game 9).1.board = create_game.board ∧
    (take_turn_step create_game 9).1.current_player =
      create_game.current_player := by
  refine ⟨(C2_move_errors create_game 9).1.mpr (by omega), ?_, ?_⟩
  · exact ((C2_move_errors create_game 9).2.2 (by decide)).1
  · exact ((C2_move_errors create_game 9).2.2 (by decide)).2

/-- C3: a successful move writes the current player's mark into exactly the
chosen cell; every other cell and the current player are unchanged. -/
theorem C3_move_frame (g : GameState) (p : Int)
    (h0 : 0 ≤ p) (h8 : p ≤ 8) (hlen : g.board.length = 9)
    (he : cell g.board p.toNat = " ") :
    (take_turn_step g p).2 = none ∧
    cell (take_turn_step g p).1.board p.toNat = g.current_player ∧
    (∀ q : Nat, q ≠ p.toNat →
      cell (take_turn_step g p).1.board q = cell g.board q) ∧
    (take_turn_step g p).1.current_player = g.current_player := by
  have h1 : ¬ (p < 0 ∨ 9 ≤ p) := by omega
  have h2 : ¬ (cell g.board p.toNat ≠ " ") := by simp [he]
  have hi : p.toNat < g.board.length := by omega
  unfold take_turn_step
  simp only [if_neg h1, if_neg h2]
  refine ⟨trivial, ?_, ?_, trivial⟩
  · simp [cell, List.getD_eq_getElem?_getD, List.getElem?_set_self hi]
  · intro q hq
    simp [cell, List.getD_eq_getElem?_getD,
      List.getElem?_set_ne (Ne.symm hq)]

/-- C3 witness: X moving at cell 0 of the fresh board fills exactly that
cell. -/
theorem C3_move_frame_witness :
    cell create_game.board 0 = " " ∧
    (take_turn_step create_game 0).2 = none ∧
    cell (take_turn_step create_game 0).1.board 0 =
      create_game.current_player ∧
    cell (take_turn_step create_game 0).1.board 5 = cell create_game.board 5 ∧
    (take_turn_step create_game 0).1.current_player =
      create_game.current_player := by
  have h := C3_move_frame create_game 0 (by decide) (by decide)
    (by decide) (by decide)
  exact ⟨by decide, h.1, h.2.1, h.2.2.1 5 (by decide), h.2.2.2⟩

/-- C4: `create_game` returns a state whose board has exactly 9 cells, all
empty, and whose current player is X. -/
theorem C4_create_game :
    create_game.board.length = 9 ∧
    (create_game.board.all fun c => c = " ") = true ∧
    create_game.current_player = "X" := by
  decide

/-- C5: for every 9-cell board, `is_draw` is true iff every cell is
non-empty; in particular this holds on boards where `winner` is `none`. -/
theorem C5_is_draw (board : List String) (h : board.length = 9) :
    (is_draw board = true ↔ ∀ c ∈ board, c ≠ " ") ∧
    (winner board = none →
      (is_draw board = true ↔ ∀ c ∈ board, c ≠ " ")) := by
  constructor
  · simp [is_draw, List.all_eq_true]
  · intro _
    simp [is_draw, List.all_eq_true]

/-- C5 witness: the theorem applied to a concrete full drawn board. -/
theorem C5_is_draw_witness :
    drawBoard.length = 9 ∧ is_draw drawBoard = true :=
  ⟨by decide, ((C5_is_draw drawBoard (by decide)).1).mpr (by decide)⟩

/-- C6: on states whose current player is X or O, `switch_player` flips
the player and applying it twice is the identity. -/
theorem C6_switch_involution (g : GameState)
    (h : g.current_player = "X" ∨ g.current_player = "O") :
    (g.current_player = "X" → (switch_player g).current_player = "O") ∧
    (g.current_player = "O" → (switch_player g).current_player = "X") ∧
    switch_player (switch_player g) = g := by
  cases g with
  | mk board player =>
    rcases h with h | h <;> subst h <;> simp [switch_player]

/-- C6 witness: the involution at a concrete state with current player O. -/
theorem C6_switch_involution_witness :
    ((GameState.mk [] "O").current_player = "X" ∨
      (GameState.mk [] "O").current_player = "O") ∧
    switch_player (switch_player (GameState.mk [] "O")) = GameState.mk [] "O" :=
  ⟨Or.inr rfl, (C6_switch_involution (GameState.mk [] "O") (Or.inr rfl)).2.2⟩

/-- C10: `switch_player` sends every current player other than the exact
string X (including values outside the two marks) to X; on a value that is
neither X nor O, two applications yield O, not the original value. -/
theorem C10_switch_default (g : GameState) (h : g.current_player ≠ "X") :
    (switch_player g).current_player = "X" ∧
    (g.current_player ≠ "O" →
      (switch_player (switch_player g)).current_player = "O" ∧
      (switch_player (switch_player g)).current_player ≠ g.current_player) := by
  constructor
  · simp [switch_player, h]
  · intro h2
    constructor
    · simp [switch_player, h]
    · simp [switch_player, h]
      intro hcontra
      exact h2 hcontra.symm

/-- C10 witness: a current player Z (outside both marks) goes to X, and a
second application gives O rather than Z. -/
theorem C10_switch_default_witness :
    (GameState.mk [] "Z").current_player ≠ "X" ∧
    (switch_player (GameState.mk [] "Z")).current_player = "X" ∧
    (switch_player (switch_player (GameState.mk [] "Z"))).current_player = "O" :=
  ⟨by decide, (C10_switch_default (GameState.mk [] "Z") (by decide)).1,
    ((C10_switch_default (GameState.mk [] "Z") (by decide)).2 (by decide)).1⟩

/-- C7: on every 9-cell board, `format_board` is the three board rows each
joined by a bar, with the fixed dashed separator line between consecutive
rows (and, being a Lean function, it is pure). -/
theorem C7_format_board (c0 c1 c2 c3 c4 c5 c6 c7 c8 : String) :
    format_board [c0, c1, c2, c3, c4, c5, c6, c7, c8] =
      c0 ++ " | " ++ c1 ++ " | " ++ c2 ++ "\n---------\n" ++
      c3 ++ " | " ++ c4 ++ " | " ++ c5 ++ "\n---------\n" ++
      c6 ++ " | " ++ c7 ++ " | " ++ c8 := by
  show String.intercalate "\n---------\n"
      [String.intercalate " | " [c0, c1, c2],
       String.intercalate " | " [c3, c4, c5],
       String.intercalate " | " [c6, c7, c8]] = _
  simp only [String.intercalate, String.intercalate.go, String.append_assoc]

lemma strongInv_player {g : GameState} (hs : StrongInv g) :
    g.current_player = "X" ∨ g.current_player = "O" := by
  rcases hs.2.2 with ⟨h, _⟩ | ⟨h, _⟩
  · exact Or.inl h
  · exact Or.inr h

/-- A valid move preserves the weak invariant, and switching the player
afterwards restores the strong one. -/
lemma strongInv_success (g : GameState) (p : Int)
    (h1 : ¬(p < 0 ∨ 9 ≤ p)) (h2 : ¬(cell g.board p.toNat ≠ " "))
    (hs : StrongInv g) :
    WeakInv { g with board := g.board.set p.toNat g.current_player } ∧
    StrongInv
      (switch_player { g with board := g.board.set p.toNat g.current_player }) := by
  obtain ⟨hlen, hall, hcouple⟩ := hs
  have hi : p.toNat < g.board.length := by omega
  push_neg at h2
  have hb : g.board[p.toNat] = " " := by
    simpa [cell, List.getD_eq_getElem?_getD,
      List.getElem?_eq_getElem hi] using h2
  have hplayer : g.current_player = "X" ∨ g.current_player = "O" := by
    rcases hcouple with ⟨h, _⟩ | ⟨h, _⟩
    · exact Or.inl h
    · exact Or.inr h
  have hlen1 : (g.board.set p.toNat g.current_player).length = 9 := by
    simpa using hlen
  have hall1 : ∀ c ∈ g.board.set p.toNat g.current_player,
      c = " " ∨ c = "X" ∨ c = "O" := by
    intro c hc
    rcases List.mem_or_eq_of_mem_set hc with h | h
    · exact hall c h
    · subst h
      rcases hplayer with h | h <;> rw [h] <;> simp
  rcases hcouple with ⟨hpx, hc⟩ | ⟨hpo, hc⟩
  · have cX : (g.board.set p.toNat g.current_player).count "X"
        = g.board.count "X" + 1 := by
      rw [hpx, List.count_set "X" "X" g.board p.toNat hi]
      simp [hb]
    have cO : (g.board.set p.toNat g.current_player).count "O"
        = g.board.count "O" := by
      rw [hpx, List.count_set "X" "O" g.board p.toNat hi]
      simp [hb]
    refine ⟨⟨hlen1, hall1, hplayer, Or.inr (by rw [cX, cO, hc])⟩, ?_⟩
    refine ⟨by simpa [switch_player] using hlen1,
      by simpa [switch_player] using hall1, Or.inr ⟨?_, ?_⟩⟩
    · simp [switch_player, hpx]
    · show (g.board.set p.toNat g.current_player).count "X"
        = (g.board.set p.toNat g.current_player).count "O" + 1
      rw [cX, cO, hc]
  · have cO : (g.board.set p.toNat g.current_player).count "O"
        = g.board.count "O" + 1 := by
      rw [hpo, List.count_set "O" "O" g.board p.toNat hi]
      simp [hb]
    have cX : (g.board.set p.toNat g.current_player).count "X"
        = g.board.count "X" := by
      rw [hpo, List.count_set "O" "X" g.board p.toNat hi]
      simp [hb]
    refine ⟨⟨hlen1, hall1, hplayer, Or.inl (by rw [cX, cO, hc])⟩, ?_⟩
    refine ⟨by simpa [switch_player] using hlen1,
      by simpa [switch_player] using hall1, Or.inl ⟨?_, ?_⟩⟩
    · simp [switch_player, hpo]
    · show (g.board.set p.toNat g.current_player).count "X"
        = (g.board.set p.toNat g.current_player).count "O"
      rw [cX, cO, hc]

/-- One `play_game` iteration preserves the session invariant. -/
lemma sessionInv_step {s : SessionState} (p : Int) (hs : SessionInv s) :
    SessionInv (play_step s p) := by
  cases s with
  | won g m => exact hs
  | draw g => exact hs
  | inProgress g =>
    by_cases h1 : p < 0 ∨ 9 ≤ p
    · have e : play_step (SessionState.inProgress g) p =
          SessionState.inProgress g := by
        simp only [play_step]
        unfold take_turn_step
        simp only [if_pos h1]
      rw [e]
      exact hs
    · by_cases h2 : cell g.board p.toNat ≠ " "
      · have e : play_step (SessionState.inProgress g) p =
            SessionState.inProgress g := by
          simp only [play_step]
          unfold take_turn_step
          simp only [if_neg h1, if_pos h2]
        rw [e]
        exact hs
      · have e : take_turn_step g p =
            ({ g with board := g.board.set p.toNat g.current_player }, none) := by
          unfold take_turn_step
          rw [if_neg h1, if_neg h2]
        obtain ⟨hw, hsw⟩ := strongInv_success g p h1 h2 hs
        cases hwin : winner
            (GameState.mk (g.board.set p.toNat g.current_player)
              g.current_player).board with
        | some m =>
          have estep : play_step (SessionState.inProgress g) p =
              SessionState.won
                { g with board := g.board.set p.toNat g.current_player } m := by
            simp only [play_step]
            rw [e]
            simp [hwin]
          rw [estep]
          exact hw
        | none =>
          by_cases hd : is_draw
              (GameState.mk (g.board.set p.toNat g.current_player)
                g.current_player).board = true
          · have estep : play_step (SessionState.inProgress g) p =
                SessionState.draw
                  { g with board := g.board.set p.toNat g.current_player } := by
              simp only [play_step]
              rw [e]
              simp [hwin, hd]
            rw [estep]
            exact hw
          · have estep : play_step (SessionState.inProgress g) p =
                SessionState.inProgress (switch_player
                  { g with board := g.board.set p.toNat g.current_player }) := by
              simp only [play_step]
              rw [e]
              simp [hwin, hd]
            rw [estep]
            exact hsw

/-- The session invariant holds at a fresh game. -/
lemma sessionInv_init : SessionInv initialSession := by
  show StrongInv create_game
  exact ⟨by decide, by decide, Or.inl ⟨rfl, by decide⟩⟩

lemma reachable_sessionInv {s : SessionState} (h : Reachable s) :
    SessionInv s := by
  induction h with
  | init => exact sessionInv_init
  | step p _ ih => exact sessionInv_step p ih

/-- C9: every state the `play_game` loop can reach has a 9-cell board whose
cells are each empty, X or O, a current player that is X or O, and an X
count equal to the O count or exceeding it by exactly one. -/
theorem C9_reachable_invariant (s : SessionState) (h : Reachable s) :
    (stateOf s).board.length = 9 ∧
    (∀ c ∈ (stateOf s).board, c = " " ∨ c = "X" ∨ c = "O") ∧
    ((stateOf s).current_player = "X" ∨ (stateOf s).current_player = "O") ∧
    ((stateOf s).board.count "X" = (stateOf s).board.count "O" ∨
     (stateOf s).board.count "X" = (stateOf s).board.count "O" + 1) := by
  have hinv := reachable_sessionInv h
  cases s with
  | inProgress g => exact strongInv_weakInv hinv
  | won g m => exact hinv
  | draw g => exact hinv

/-- C9 witness: the invariant at the initial session state. -/
theorem C9_reachable_invariant_witness :
    (stateOf initialSession).board.length = 9 ∧
    ((stateOf initialSession).current_player = "X" ∨
     (stateOf initialSession).current_player = "O") ∧
    ((stateOf initialSession).board.count "X" =
        (stateOf initialSession).board.count "O" ∨
     (stateOf initialSession).board.count "X" =
        (stateOf initialSession).board.count "O" + 1) := by
  have h := C9_reachable_invariant initialSession Reachable.init
  exact ⟨h.1, h.2.2.1, h.2.2.2⟩

/-- C8: the `won` and `draw` session states are terminal: the `play_game`
step relation leaves them fixed under any further sequence of inputs, so no
further move is ever applied to their boards. -/
theorem C8_terminal (g : GameState) (m : String) (inputs : List Int) :
    inputs.foldl play_step (SessionState.won g m) = SessionState.won g m ∧
    inputs.foldl play_step (SessionState.draw g) = SessionState.draw g := by
  induction inputs with
  | nil => exact ⟨rfl, rfl⟩
  | cons p rest ih => exact ih

end TicTacToe
